import Mathlib

/-!
Verification of the shard I/O core of a GCSA construction library (files.cpp).

The C++ source under verification is `src/files.cpp` (namespace `gcsa`).  The
record codec it relies on (`Key`, `Node`, `KMer`, `PathNode`, declared in the
missing header `files.h`) is an external dependency per the specification and is
modelled here from the spec's interface description.  Streams are modelled at
record/section granularity: a binary shard file is a list of sections, a text
shard file a list of lines; `std::exit(EXIT_FAILURE)` is modelled by returning
an `Except` error tagged with the diagnostic that was printed.
-/

namespace gcsa

/-- The marker `~(size_type)0` used by files.cpp for "unknown" lengths and
node ids (readText line 68, readBinary line 109, `InputGraph::UNKNOWN`).
The C++ `size_type` is uint64_t; counts are natural numbers in the model (the
only arithmetic performed on them is addition and doubling of record counts,
far below the 2^64 wrap-around). -/
def UNKNOWN : Nat := 2 ^ 64 - 1

/-- A fatal validation error: files.cpp prints a diagnostic and calls
`std::exit(EXIT_FAILURE)`.  The constructor records which diagnostic. -/
inductive Fatal where
  | invalidFlags
  | invalidLength
  | lengthMismatch
  | cannotOpen
  | invalidFile
deriving DecidableEq, Repr

/-- Decidable equality for `Except`, used to evaluate concrete runs. -/
def exceptDecEq {ε α : Type} [DecidableEq ε] [DecidableEq α] : DecidableEq (Except ε α) := fun a b =>
  match a, b with
  | .ok x, .ok y =>
    if h : x = y then .isTrue (by rw [h]) else .isFalse (by intro hc; cases hc; exact h rfl)
  | .error x, .error y =>
    if h : x = y then .isTrue (by rw [h]) else .isFalse (by intro hc; cases hc; exact h rfl)
  | .ok _, .error _ => .isFalse (by intro hc; cases hc)
  | .error _, .ok _ => .isFalse (by intro hc; cases hc)

instance {ε α : Type} [DecidableEq ε] [DecidableEq α] : DecidableEq (Except ε α) := exceptDecEq

/-- Modelled from the spec: `Key` (external Record Codec, declared in the
missing header) is an opaque packed integer combining a fixed-length label with
node/predecessor information bits.  The model splits the packed integer into
its label part and the remaining information bits; the required operations are
`label`, `replace`, `merge` (valid only for identical labels; it combines the
information bit sets) and ordering by label then the remaining bits. -/
structure Key where
  label : Nat
  info : Nat
deriving DecidableEq, Repr

/-- A value-initialized `key_type` is 0: empty label, no information bits. -/
instance : Inhabited Key := ⟨⟨0, 0⟩⟩

/-- Modelled from the spec: the maximum representable label width of the
external key encoding (`Key::MAX_LENGTH`); 21 characters in the reference
64-bit packing.  The claims use it only symbolically. -/
def Key.MAX_LENGTH : Nat := 21

/-- Modelled from the spec: merge two keys with identical labels by combining
their information bit sets (order-independent for equal-label keys). -/
def Key.merge (k1 k2 : Key) : Key := ⟨k1.label, k1.info ||| k2.info⟩

/-- Modelled from the spec: replace the label portion of a key (used to
substitute the dense rank of the label). -/
def Key.replace (k : Key) (r : Nat) : Key := ⟨r, k.info⟩

/-- Modelled from the spec: the full key ordering — comparison of the packed
integer, i.e. by label first, then by the remaining information bits. -/
def Key.le (a b : Key) : Prop :=
  a.label < b.label ∨ (a.label = b.label ∧ a.info ≤ b.info)

instance : DecidableRel Key.le := fun a b =>
  inferInstanceAs (Decidable (a.label < b.label ∨ (a.label = b.label ∧ a.info ≤ b.info)))

instance : IsTotal Key Key.le :=
  ⟨fun a b => by unfold Key.le; omega⟩

instance : IsTrans Key Key.le :=
  ⟨fun a b c hab hbc => by unfold Key.le at *; omega⟩

/-- Modelled from the spec: a node position (external codec), a node id plus
an offset packed into an integer; `Node::id` / `Node::offset` extract them. -/
structure Node where
  id : Nat
  offset : Nat
deriving DecidableEq, Repr

instance : Inhabited Node := ⟨⟨0, 0⟩⟩

/-- Modelled from the spec (§3): a `KMer` record — one edge of the input
graph: a context key, a source position, a destination position, and the
`sorted` flag (set only by the dedicated post-load pass). -/
structure KMer where
  key : Key
  «from» : Node
  «to» : Node
  sorted : Bool
deriving DecidableEq, Repr

instance : Inhabited KMer := ⟨⟨⟨0, 0⟩, ⟨0, 0⟩, ⟨0, 0⟩, false⟩⟩

/-- Modelled from the spec: mark a record as non-extendable. -/
def KMer.makeSorted (km : KMer) : KMer := ⟨km.key, km.«from», km.«to», true⟩

/-- Ordering of KMer records (used by the external parallelQuickSort): by key. -/
def KMer.le (a b : KMer) : Prop := Key.le a.key b.key

instance : DecidableRel KMer.le := fun a b => inferInstanceAs (Decidable (Key.le a.key b.key))

/-- Splitting of a character list at a delimiter, `std::getline`-style except
that the result always has one final (possibly empty) piece; see
`getlineSplit` for the exact `getline` convention. -/
def splitListOn (c : Char) : List Char → List (List Char)
  | [] => [[]]
  | x :: xs =>
    let r := splitListOn c xs
    if x = c then [] :: r
    else
      match r with
      | [] => [[x]]
      | t :: ts => (x :: t) :: ts

/-- The token sequence produced by repeated `std::getline(ss, token, c)` on a
string: like splitting on the delimiter, except that a trailing empty piece is
not produced (the final `getline` fails at end-of-stream), and the empty string
yields no tokens at all. -/
def getlineSplit (s : String) (c : Char) : List String :=
  let ts := (splitListOn c s.data).map (fun l => String.mk l)
  match ts.getLast? with
  | some "" => ts.dropLast
  | _ => ts

/-- Modelled from the spec: decode a number from a digit token (external
parsing; the exact convention is irrelevant to the claims). -/
def natOfChars : List Char → Nat → Nat
  | [], acc => acc
  | c :: cs, acc => natOfChars cs (acc * 10 + (c.toNat - 48) % 10)

/-- Modelled from the spec: packed-integer encoding of a label string (the
Alphabet and the exact bit layout are external).  The empty label encodes to
0, matching the end-marker convention used by `markSinkNode`. -/
def labelEncode (s : String) : Nat :=
  s.data.foldl (fun a c => a * 256 + c.toNat % 256 + 1) 0

/-- Modelled from the spec: parse a node position token (external codec). -/
def Node.ofString (s : String) : Node :=
  match splitListOn ':' s.data with
  | [a] => ⟨natOfChars a 0, 0⟩
  | a :: b :: _ => ⟨natOfChars a 0, natOfChars b 0⟩
  | [] => ⟨0, 0⟩

/-- Modelled from the spec: the external `KMer(tokens, alpha, successor)`
constructor — context label from tokens[0], the source position from
tokens[1], predecessor/successor character information from tokens[2..3]
packed into the key, and the destination position from the given successor
token. -/
def KMer.ofTokens (tokens : List String) (successor : Nat) : KMer :=
  ⟨⟨labelEncode (tokens.getD 0 ""),
    labelEncode (tokens.getD 2 "") * 4096 + labelEncode (tokens.getD 3 "") % 4096⟩,
   Node.ofString (tokens.getD 1 ""),
   Node.ofString (tokens.getD successor ""),
   false⟩

/-- files.cpp 32-60, `tokenize`: split the line at tabs; if the line does not
have exactly 5 tokens, print a diagnostic and return false (modelled `none`).
Otherwise keep the first four tokens and split the fifth (the successor list)
at commas, appending the successor tokens. -/
def tokenize (line : String) : Option (List String) :=
  let tokens := getlineSplit line '\t'
  if tokens.length ≠ 5 then none
  else some (tokens.take 4 ++ getlineSplit (tokens.getD 4 "") ',')

/-- files.cpp 93-96: one KMer is pushed per successor token
(`for successor = 4; successor < tokens.size()`). -/
def kmersOfTokens (tokens : List String) : List KMer :=
  (List.range (tokens.length - 4)).map (fun i => KMer.ofTokens tokens (4 + i))

/-- files.cpp 62-100, the loop of `readText`.  State: records pushed so far and
the current `kmer_length` (initially `UNKNOWN`).  A line that fails `tokenize`
is skipped.  On the first valid line the kmer length is established and
checked against 0 / `Key::MAX_LENGTH` (fatal if invalid); every later valid
line must match it exactly (fatal mismatch otherwise).  A fatal exit carries
the records emitted before the exit. -/
def readTextLoop : List String → List KMer → Nat →
    Except (List KMer × Fatal) (List KMer × Nat)
  | [], kmers, klen => .ok (kmers, klen)
  | line :: rest, kmers, klen =>
    match tokenize line with
    | none => readTextLoop rest kmers klen
    | some tokens =>
      if klen = UNKNOWN then
        if (tokens.headD "").length = 0 ∨ Key.MAX_LENGTH < (tokens.headD "").length then
          .error (kmers, .invalidLength)
        else readTextLoop rest (kmers ++ kmersOfTokens tokens) (tokens.headD "").length
      else if (tokens.headD "").length ≠ klen then .error (kmers, .lengthMismatch)
      else readTextLoop rest (kmers ++ kmersOfTokens tokens) klen

/-- files.cpp 62-100, `readText(in, kmers, append)`. -/
def readText (lines : List String) (kmers : List KMer) (append : Bool) :
    Except (List KMer × Fatal) (List KMer × Nat) :=
  readTextLoop lines (if append then kmers else []) UNKNOWN

/-- A section of a binary shard stream: a `GraphFileHeader
{flags, kmer_count, kmer_length}` followed by exactly `kmer_count` fixed-size
KMer records (files.cpp 177-201, spec §6).  The model carries the payload
list; the header's `kmer_count` field is the payload length. -/
structure Section where
  flags : Nat
  kmer_length : Nat
  payload : List KMer
deriving DecidableEq, Repr

/-- files.cpp 104-144, the loop of `readBinary`: per section, fatal on nonzero
flags; on the first section the kmer length is established and checked against
0 / `Key::MAX_LENGTH`; every later section must declare the same length
(fatal mismatch otherwise); then the section's records are appended. -/
def readBinaryLoop : List Section → List KMer → Nat →
    Except (List KMer × Fatal) (List KMer × Nat)
  | [], kmers, klen => .ok (kmers, klen)
  | s :: rest, kmers, klen =>
    if s.flags ≠ 0 then .error (kmers, .invalidFlags)
    else if klen = UNKNOWN then
      if s.kmer_length = 0 ∨ Key.MAX_LENGTH < s.kmer_length then .error (kmers, .invalidLength)
      else readBinaryLoop rest (kmers ++ s.payload) s.kmer_length
    else if s.kmer_length ≠ klen then .error (kmers, .lengthMismatch)
    else readBinaryLoop rest (kmers ++ s.payload) klen

/-- files.cpp 104-144, `readBinary(in, kmers, append)`. -/
def readBinary (stream : List Section) (kmers : List KMer) (append : Bool) :
    Except (List KMer × Fatal) (List KMer × Nat) :=
  readBinaryLoop stream (if append then kmers else []) UNKNOWN

/-- files.cpp 148-154, `writeBinary`: one section whose header declares
`kmer_count = kmers.size()` and the given kmer length. -/
def writeBinary (kmers : List KMer) (kmer_length : Nat) : List Section :=
  [⟨0, kmer_length, kmers⟩]

def BINARY_EXTENSION : String := ".graph"

def TEXT_EXTENSION : String := ".gcsa2"

/-- files.cpp 156-173, `writeKMers`: open `base_name + BINARY_EXTENSION`; if
the file cannot be opened, print a diagnostic and RETURN (the function does
not exit); otherwise write one binary section.  `canOpen` models the file
system; the written stream is returned as `some` sections, `none` when the
open failed and nothing was written. -/
def writeKMers (canOpen : String → Bool) (base_name : String) (kmers : List KMer)
    (kmer_length : Nat) : Except Fatal (Option (List Section)) :=
  let filename := base_name ++ BINARY_EXTENSION
  if canOpen filename then .ok (some (writeBinary kmers kmer_length))
  else .ok none

/-- files.cpp 205-229, `parseKMer`: returns (length of the first
tab-token, number of comma-tokens of the fifth tab-token).  Any failing
`getline` returns early: result `(UNKNOWN, 0)` for an empty line, and
`(first token length, 0)` for a line with fewer than 5 tab-separated fields. -/
def parseKMer (kmer_line : String) : Nat × Nat :=
  let ts := getlineSplit kmer_line '\t'
  match ts with
  | [] => (UNKNOWN, 0)
  | t0 :: _ =>
    if ts.length < 5 then (t0.length, 0)
    else (t0.length, (getlineSplit (ts.getD 4 "") ',').length)

/-- files.cpp 241-245: the first pass of `markSinkNode` — the sink node id is
the source id of the first record whose label portion is empty (encodes to 0);
`UNKNOWN` when there is none. -/
def findSink (kmers : List KMer) : Nat :=
  match kmers.find? (fun km => km.key.label == 0) with
  | some km => km.«from».id
  | none => UNKNOWN

/-- files.cpp 238-250, `markSinkNode`: mark every record whose destination id
equals the sink node id and whose destination offset is nonzero. -/
def markSinkNode (kmers : List KMer) : List KMer :=
  let sink_node := findSink kmers
  kmers.map (fun km =>
    if km.«to».id = sink_node ∧ 0 < km.«to».offset then km.makeSorted else km)

/-- Contents of one input shard file: binary sections or text lines. -/
inductive FileData where
  | binary (sections : List Section)
  | text (lines : List String)
deriving DecidableEq, Repr

/-- Dispatch of `InputGraph::read(kmers, file, append)`'s parsing step on the
format (files.cpp 368). -/
def readFileData (fd : FileData) (kmers : List KMer) (append : Bool) :
    Except (List KMer × Fatal) (List KMer × Nat) :=
  match fd with
  | .binary secs => readBinary secs kmers append
  | .text lines => readText lines kmers append

/-- The filename extension used for a shard (files.cpp 263). -/
def FileData.extension (fd : FileData) : String :=
  match fd with
  | .binary _ => BINARY_EXTENSION
  | .text _ => TEXT_EXTENSION

/-- The in-memory `InputGraph` object (files.h interface, fields per
files.cpp usage): shard filenames, per-shard sizes, total `kmer_count`, and
the established `kmer_length`.  The model additionally carries the contents of
the named files (`contents[f]` is what reading `filenames[f]` yields). -/
structure InputGraph where
  filenames : List String
  contents : List FileData
  sizes : List Nat
  kmer_count : Nat
  kmer_length : Nat
deriving DecidableEq, Repr

/-- files.cpp 323-339, `InputGraph::setK` followed by `checkK`: on the first
observation the length is established; afterwards any differing observation is
the fatal length-mismatch diagnostic.  Returns the new established length. -/
def setK (k new_k : Nat) : Except Fatal Nat :=
  let k' := if k = UNKNOWN then new_k else k
  if new_k ≠ k' then .error .lengthMismatch else .ok k'

/-- files.cpp 274-283: the constructor's scan of one binary file — per
section: `kmer_count += header.kmer_count; setK(header.kmer_length);
sizes[file] += header.kmer_count` (payload skipped with seekg).  State:
(total count, established length, this file's size so far). -/
def scanSections : List Section → Nat → Nat → Nat →
    Except Fatal (Nat × Nat × Nat)
  | [], kc, k, sz => .ok (kc, k, sz)
  | s :: rest, kc, k, sz =>
    match setK k s.kmer_length with
    | .error e => .error e
    | .ok k' => scanSections rest (kc + s.payload.length) k' (sz + s.payload.length)

/-- files.cpp 286-295: the constructor's scan of one text file — per line:
`temp = parseKMer(line); setK(temp.first); kmer_count += temp.second;
sizes[file] += temp.second`.  Note that `setK` is applied to the first-token
length of EVERY line, including lines `tokenize` would reject. -/
def scanLines : List String → Nat → Nat → Nat →
    Except Fatal (Nat × Nat × Nat)
  | [], kc, k, sz => .ok (kc, k, sz)
  | line :: rest, kc, k, sz =>
    let temp := parseKMer line
    match setK k temp.1 with
    | .error e => .error e
    | .ok k' => scanLines rest (kc + temp.2) k' (sz + temp.2)

/-- The constructor's scan of one file, by format (files.cpp 272-296). -/
def scanFile (fd : FileData) (kc k : Nat) :
    Except Fatal (Nat × Nat × Nat) :=
  match fd with
  | .binary secs => scanSections secs kc k 0
  | .text lines => scanLines lines kc k 0

/-- files.cpp 257-304: the constructor's loop over the shard files.  Each file
is opened (fatal if it cannot be) and scanned; the per-file sizes are
collected in order. -/
def InputGraph.buildLoop (canOpen : String → Bool) :
    List (String × FileData) → Nat → Nat →
    Except Fatal (Nat × Nat × List Nat)
  | [], kc, k => .ok (kc, k, [])
  | (name, fd) :: rest, kc, k =>
    if canOpen name then
      match scanFile fd kc k with
      | .error e => .error e
      | .ok (kc', k', sz) =>
        match InputGraph.buildLoop canOpen rest kc' k' with
        | .error e => .error e
        | .ok (kc'', k'', szs) => .ok (kc'', k'', sz :: szs)
    else .error .cannotOpen

/-- files.cpp 257-304, the `InputGraph` constructor: form the filenames (base
name plus format extension), then scan every file to determine `kmer_count`,
`kmer_length` and the per-file `sizes`. -/
def InputGraph.build (files : List (String × FileData)) (canOpen : String → Bool) :
    Except Fatal InputGraph :=
  let named := files.map (fun p => (p.1 ++ p.2.extension, p.2))
  match InputGraph.buildLoop canOpen named 0 UNKNOWN with
  | .error e => .error e
  | .ok (kc, k, szs) => .ok ⟨named.map (fun p => p.1), named.map (fun p => p.2), szs, kc, k⟩

/-- files.cpp 306-321, `InputGraph::open` (`open` is a Lean keyword, hence
`openFile`): fatal on an invalid file number, fatal when the file cannot be
opened. -/
def InputGraph.openFile (g : InputGraph) (canOpen : String → Bool) (file : Nat) :
    Except Fatal Unit :=
  if g.filenames.length ≤ file then .error .invalidFile
  else if canOpen (g.filenames.getD file "") then .ok ()
  else .error .cannotOpen

/-- files.cpp 361-381, `InputGraph::read(kmers, file, append = false)`: open
the file, parse it (binary or text), `checkK` the returned length against the
graph's established length (fatal mismatch), and run `markSinkNode` (only in
the non-append form modelled here). -/
def InputGraph.readRecords (g : InputGraph) (canOpen : String → Bool) (file : Nat) :
    Except Fatal (List KMer) :=
  match g.openFile canOpen file with
  | .error e => .error e
  | .ok _ =>
    match readFileData (g.contents.getD file (.binary [])) [] false with
    | .error (_, e) => .error e
    | .ok (kmers, new_k) =>
      if new_k ≠ g.kmer_length then .error .lengthMismatch
      else .ok (markSinkNode kmers)

/-- files.cpp 394-397: `for(i = 0; i < sizes[file]; i++)
keys.push_back(kmers[i].key)`.  Indexing past `kmers.size()` is undefined in
C++; the model totalizes it with the value-initialized record. -/
def shardKeys (kmers : List KMer) (size : Nat) : List Key :=
  (List.range size).map (fun i => (kmers.getD i default).key)

/-- files.cpp 390-398: the key-loading loop of `InputGraph::read(keys)` over
the files in order. -/
def InputGraph.loadKeysLoop (g : InputGraph) (canOpen : String → Bool) :
    List Nat → Except Fatal (List Key)
  | [] => .ok []
  | f :: fs =>
    match g.readRecords canOpen f with
    | .error e => .error e
    | .ok kmers =>
      match g.loadKeysLoop canOpen fs with
      | .error e => .error e
      | .ok rest => .ok (shardKeys kmers (g.sizes.getD f 0) ++ rest)

/-- The keys loaded by `InputGraph::read(keys)` before sorting (files.cpp
383-398). -/
def InputGraph.loadKeys (g : InputGraph) (canOpen : String → Bool) :
    Except Fatal (List Key) :=
  g.loadKeysLoop canOpen (List.range g.filenames.length)

/-- The external `parallelQuickSort` on keys, modelled as a correct comparison
sort by the full key ordering. -/
def sortKeys (keys : List Key) : List Key := List.insertionSort Key.le keys

/-- files.cpp 402-407: the in-place coalescing loop, written functionally.
`acc` is the key currently sitting at the write position `i`; an adjacent key
with the same label is merged into it, a key with a new label finishes `acc`
and takes its place. -/
def coalesceLoop (acc : Key) : List Key → List Key
  | [] => [acc]
  | k :: ks =>
    if acc.label = k.label then coalesceLoop (Key.merge acc k) ks
    else acc :: coalesceLoop k ks

/-- files.cpp 402-408: the coalescing pass including the final
`keys.resize(i + 1)`.  NOTE: on an empty key vector the loop does not run,
`i = 0`, and `resize(1)` grows the vector to ONE value-initialized key. -/
def coalesce : List Key → List Key
  | [] => [default]
  | k :: ks => coalesceLoop k ks

/-- files.cpp 383-413, `InputGraph::read(keys)`: load all shards' keys, sort
them by the full key ordering, and coalesce adjacent keys with equal label. -/
def InputGraph.readKeys (g : InputGraph) (canOpen : String → Bool) :
    Except Fatal (List Key) :=
  match g.loadKeys canOpen with
  | .error e => .error e
  | .ok keys => .ok (coalesce (sortKeys keys))

/-- Specification-side definition (spec §4.1): the `Key::merge` of all the
keys of `ks`, all sharing the label `L` — the label together with the union of
all information bit sets. -/
def mergeAll (L : Nat) (ks : List Key) : Key :=
  ⟨L, ks.foldr (fun k a => k.info ||| a) 0⟩

/-- Specification-side definition (spec §4.1, deduplication path): the sorted
list of distinct labels of the input, each mapped to the merge of all input
keys carrying that label. -/
def specUniqueKeys (input : List Key) : List Key :=
  (List.insertionSort (fun a b => a ≤ b) (input.map Key.label)).dedup.map
    (fun L => mergeAll L (input.filter (fun k => k.label == L)))

/-- Modelled from the spec (§3): a `PathNode` record — fixed-size header
(positions and flags) plus its variable-length rank list, which on disk
follows the header inline and in memory lives in the side label stream. -/
structure PathNode where
  «from» : Node
  «to» : Node
  sorted : Bool
  ranks : List Nat
deriving DecidableEq, Repr

instance : Inhabited PathNode := ⟨⟨⟨0, 0⟩, ⟨0, 0⟩, false, []⟩⟩

/-- Modelled from the spec (§4.2): order-1 conversion of a KMer (whose key
label has already been replaced by its dense rank) to a PathNode; every
order-1 record carries exactly two rank values. -/
def PathNode.ofKMer (km : KMer) : PathNode :=
  ⟨km.«from», km.«to», km.sorted, [km.key.label, km.key.label + 1]⟩

/-- The `PathGraph` object (fields per files.cpp 419-524): per-shard temp
filenames, sizes and rank counts, the totals, the current order, and the
doubling-round counters.  The model additionally carries the contents of the
temp files. -/
structure PathGraph where
  filenames : List String
  sizes : List Nat
  rank_counts : List Nat
  fileContents : List (List PathNode)
  path_count : Nat
  rank_count : Nat
  order : Nat
  unique : Nat
  unsorted : Nat
  nondeterministic : Nat
deriving DecidableEq, Repr

/-- files.cpp 443-451: sort one shard's KMers by full key order, replace each
key's label by its rank among the existing labels, and convert to PathNodes
(`parallelQuickSort` modelled as a correct comparison sort). -/
def PathGraph.convert (key_rank : Nat → Nat) (kmers : List KMer) : List PathNode :=
  (List.insertionSort KMer.le kmers).map
    (fun km => PathNode.ofKMer ⟨Key.replace km.key (key_rank km.key.label), km.«from», km.«to», km.sorted⟩)

/-- files.cpp 426-453: the constructor's loop over the source's shard files.
Per file: a temp filename is taken, the shard's size and `2 * size` ranks are
recorded into the per-shard lists and the totals, the temp file is opened
(fatal if it cannot be), the source shard is read (`source.read(kmers, file)`)
and its converted records are written to the temp file. -/
def PathGraph.buildLoop (source : InputGraph) (canOpen : String → Bool)
    (key_rank : Nat → Nat) (tempNames : List String) :
    List Nat →
    Except Fatal (List String × List Nat × List Nat ×
      Nat × Nat × List (List PathNode))
  | [] => .ok ([], [], [], 0, 0, [])
  | f :: fs =>
    let temp_file := tempNames.getD f ""
    let sz := source.sizes.getD f 0
    if canOpen temp_file then
      match source.readRecords canOpen f with
      | .error e => .error e
      | .ok kmers =>
        match PathGraph.buildLoop source canOpen key_rank tempNames fs with
        | .error e => .error e
        | .ok (ns, szs, rcs, pc, rc, fcs) =>
          .ok (temp_file :: ns, sz :: szs, (2 * sz) :: rcs, sz + pc, 2 * sz + rc,
            PathGraph.convert key_rank kmers :: fcs)
    else .error .cannotOpen

/-- files.cpp 419-459, the `PathGraph(InputGraph, key_exists)` constructor.
The external temp-file name service is the `tempNames` parameter; the rank
support of the key-existence bitmap is the `key_rank` parameter.  The order is
the source's kmer length, and the round counters start at `UNKNOWN`. -/
def PathGraph.build (source : InputGraph) (canOpen : String → Bool)
    (key_rank : Nat → Nat) (tempNames : List String) : Except Fatal PathGraph :=
  match PathGraph.buildLoop source canOpen key_rank tempNames
      (List.range source.filenames.length) with
  | .error e => .error e
  | .ok (ns, szs, rcs, pc, rc, fcs) =>
    .ok ⟨ns, szs, rcs, fcs, pc, rc, source.kmer_length, UNKNOWN, UNKNOWN, UNKNOWN⟩

/-- files.cpp 477-491, `PathGraph::clear`: the temp files are removed and
every field reset. -/
def PathGraph.clear (_g : PathGraph) : PathGraph :=
  ⟨[], [], [], [], 0, 0, 0, UNKNOWN, UNKNOWN, UNKNOWN⟩

/-- files.cpp 493-507, `PathGraph::swap`: every field of the two graphs is
exchanged. -/
def PathGraph.swap (a b : PathGraph) : PathGraph × PathGraph :=
  (⟨b.filenames, b.sizes, b.rank_counts, b.fileContents, b.path_count, b.rank_count,
    b.order, b.unique, b.unsorted, b.nondeterministic⟩,
   ⟨a.filenames, a.sizes, a.rank_counts, a.fileContents, a.path_count, a.rank_count,
    a.order, a.unique, a.unsorted, a.nondeterministic⟩)

/-- files.cpp 509-524, `PathGraph::open`. -/
def PathGraph.openFile (g : PathGraph) (canOpen : String → Bool) (file : Nat) :
    Except Fatal Unit :=
  if g.filenames.length ≤ file then .error .invalidFile
  else if canOpen (g.filenames.getD file "") then .ok ()
  else .error .cannotOpen

/-- files.cpp 631-649, `PathGraph::read(paths, labels, file, append)`.  NOTE
the loop bound in the source is `for(i = 0; i < path_count; i++)` — the
member `this->path_count`, the total over ALL shards — although the capacity
reservations use `this->sizes[file]` / `this->rank_counts[file]`.  Reading a
record past the end of the shard stream yields a value-initialized junk
record (modelled by `default`); each record read appends its rank payload to
the shared label stream. -/
def PathGraph.readShard (g : PathGraph) (canOpen : String → Bool) (file : Nat)
    (paths : List PathNode) (labels : List Nat) (append : Bool) :
    Except Fatal (List PathNode × List Nat) :=
  let paths0 := if append then paths else []
  let labels0 := if append then labels else []
  match g.openFile canOpen file with
  | .error e => .error e
  | .ok _ =>
    let data := g.fileContents.getD file []
    let newNodes := (List.range g.path_count).map (fun i => data.getD i default)
    .ok (paths0 ++ newNodes, labels0 ++ (newNodes.map PathNode.ranks).flatten)

/-- files.cpp 616-619: the shard loop of the full `PathGraph::read`. -/
def PathGraph.readAllLoop (g : PathGraph) (canOpen : String → Bool) :
    List Nat → List PathNode → List Nat →
    Except Fatal (List PathNode × List Nat)
  | [], paths, labels => .ok (paths, labels)
  | f :: fs, paths, labels =>
    match g.readShard canOpen f paths labels true with
    | .error e => .error e
    | .ok (paths', labels') => g.readAllLoop canOpen fs paths' labels'

/-- files.cpp 610-629, `PathGraph::read(paths, labels)`: concatenate all
shards, then sort by first label (the external `PathFirstComparator` is the
`cmp` parameter). -/
def PathGraph.readAll (g : PathGraph) (canOpen : String → Bool)
    (cmp : PathNode → PathNode → Prop) [DecidableRel cmp] :
    Except Fatal (List PathNode × List Nat) :=
  match g.readAllLoop canOpen (List.range g.filenames.length) [] [] with
  | .error e => .error e
  | .ok (paths, labels) => .ok (List.insertionSort cmp paths, labels)

/-- The count invariant of spec §3: the totals equal the sums of the
per-shard counts. -/
def PathGraph.countsOk (g : PathGraph) : Prop :=
  g.path_count = g.sizes.sum ∧ g.rank_count = g.rank_counts.sum

instance (g : PathGraph) : Decidable g.countsOk := by
  unfold PathGraph.countsOk; infer_instance

/-- The diagnostic with which a parsing run terminated the process, if it did
(`none` when the run returned normally). -/
def fatalOf {α : Type} : Except (List KMer × Fatal) α → Option Fatal
  | .error (_, e) => some e
  | .ok _ => none

/-! Concrete values used to evaluate the definitions on closed inputs. -/

/-- A tiny path record (shard 0 of `pgC1`). -/
def pnA : PathNode := ⟨⟨1, 0⟩, ⟨2, 1⟩, false, [1, 2]⟩

def pnB : PathNode := ⟨⟨3, 0⟩, ⟨4, 1⟩, false, [3, 4]⟩

def pnC : PathNode := ⟨⟨5, 0⟩, ⟨6, 1⟩, false, [5, 6]⟩

/-- A PathGraph with two shards of sizes 1 and 2 (consistent metadata:
`path_count = 3 = 1 + 2`, `rank_count = 6 = 2 + 4`, shard files holding
exactly their declared record counts). -/
def pgC1 : PathGraph :=
  ⟨["a", "b"], [1, 2], [2, 4], [[pnA], [pnB, pnC]], 3, 6, 1, UNKNOWN, UNKNOWN, UNKNOWN⟩

/-- An input graph over one binary shard file containing no sections: zero
kmers.  It is exactly what the constructor produces on such a file. -/
def gEmpty : InputGraph := ⟨["e.graph"], [.binary []], [0], 0, UNKNOWN⟩

def kmX : KMer := ⟨⟨5, 1⟩, ⟨1, 0⟩, ⟨2, 1⟩, false⟩

def kmY : KMer := ⟨⟨5, 2⟩, ⟨1, 0⟩, ⟨3, 1⟩, false⟩

def kmZ : KMer := ⟨⟨9, 4⟩, ⟨1, 0⟩, ⟨4, 1⟩, false⟩

/-- An input graph with three kmers, two of them sharing label 5. -/
def gC2 : InputGraph := ⟨["w.graph"], [.binary [⟨0, 2, [kmX, kmY, kmZ]⟩]], [3], 3, 2⟩

def kmA : KMer := ⟨⟨5, 0⟩, ⟨1, 0⟩, ⟨2, 1⟩, false⟩

/-- An input graph with a single one-record binary shard of kmer length 2. -/
def gC9 : InputGraph := ⟨["a.graph"], [.binary [⟨0, 2, [kmA]⟩]], [1], 1, 2⟩

/-- The PathGraph that `PathGraph.build gC9 (fun _ => true) id ["t"]` yields. -/
def pgC9 : PathGraph :=
  ⟨["t"], [1], [2], [[⟨⟨1, 0⟩, ⟨2, 1⟩, false, [5, 6]⟩]], 1, 2, 2, UNKNOWN, UNKNOWN, UNKNOWN⟩

/-- A well-formed 5-field text kmer line with one successor token. -/
def goodLine : String := "AC\tX\tY\tZ\t1"

/-- A text line with a single tab-separated field. -/
def shortLine : String := "ACG"

/-- A record with an empty label: the end marker from which the sink node id
(here 7) is recovered. -/
def kmSink : KMer := ⟨⟨0, 0⟩, ⟨7, 0⟩, ⟨3, 0⟩, false⟩

/-- A record whose destination is the sink node at a nonzero offset. -/
def kmEdge : KMer := ⟨⟨5, 0⟩, ⟨1, 0⟩, ⟨7, 2⟩, false⟩

/-- An input graph whose recorded `kmer_length` (5) disagrees with the length
its shard file declares (4). -/
def gBad : InputGraph := ⟨["m.graph"], [.binary [⟨0, 4, []⟩]], [0], 0, 5⟩

/-! Helper lemmas. -/

theorem sum_map_two_mul (l : List Nat) : (l.map (fun s => 2 * s)).sum = 2 * l.sum := by
  induction l with
  | nil => rfl
  | cons a t ih => simp [List.sum_cons, ih, Nat.mul_add]

theorem scanSections_delta :
    ∀ (secs : List Section) (kc k sz kc' k' sz' : Nat),
    scanSections secs kc k sz = .ok (kc', k', sz') → ∃ d, kc' = kc + d ∧ sz' = sz + d := by
  intro secs
  induction secs with
  | nil =>
    intro kc k sz kc' k' sz' h
    simp [scanSections] at h
    exact ⟨0, by omega, by omega⟩
  | cons s rest ih =>
    intro kc k sz kc' k' sz' h
    simp only [scanSections] at h
    cases hsk : setK k s.kmer_length with
    | error e => simp [hsk] at h
    | ok k2 =>
      simp only [hsk] at h
      obtain ⟨d, h1, h2⟩ := ih _ _ _ _ _ _ h
      exact ⟨s.payload.length + d, by omega, by omega⟩

theorem scanLines_delta :
    ∀ (lines : List String) (kc k sz kc' k' sz' : Nat),
    scanLines lines kc k sz = .ok (kc', k', sz') → ∃ d, kc' = kc + d ∧ sz' = sz + d := by
  intro lines
  induction lines with
  | nil =>
    intro kc k sz kc' k' sz' h
    simp [scanLines] at h
    exact ⟨0, by omega, by omega⟩
  | cons line rest ih =>
    intro kc k sz kc' k' sz' h
    simp only [scanLines] at h
    cases hsk : setK k (parseKMer line).1 with
    | error e => simp [hsk] at h
    | ok k2 =>
      simp only [hsk] at h
      obtain ⟨d, h1, h2⟩ := ih _ _ _ _ _ _ h
      exact ⟨(parseKMer line).2 + d, by omega, by omega⟩

theorem scanFile_delta (fd : FileData) (kc k kc' k' sz' : Nat)
    (h : scanFile fd kc k = .ok (kc', k', sz')) : kc' = kc + sz' := by
  cases fd with
  | binary secs =>
    obtain ⟨d, h1, h2⟩ := scanSections_delta secs kc k 0 kc' k' sz' h
    omega
  | text lines =>
    obtain ⟨d, h1, h2⟩ := scanLines_delta lines kc k 0 kc' k' sz' h
    omega

theorem inputGraph_buildLoop_sum (canOpen : String → Bool) :
    ∀ (files : List (String × FileData)) (kc k kc' k' : Nat) (szs : List Nat),
    InputGraph.buildLoop canOpen files kc k = .ok (kc', k', szs) → kc' = kc + szs.sum := by
  intro files
  induction files with
  | nil =>
    intro kc k kc' k' szs h
    simp [InputGraph.buildLoop] at h
    obtain ⟨h1, h2, h3⟩ := h
    subst h3
    simpa using h1.symm
  | cons p rest ih =>
    intro kc k kc' k' szs h
    obtain ⟨name, fd⟩ := p
    simp only [InputGraph.buildLoop] at h
    by_cases hco : canOpen name
    · rw [if_pos hco] at h
      cases hsf : scanFile fd kc k with
      | error e => simp [hsf] at h
      | ok r =>
        obtain ⟨kc1, k1, sz⟩ := r
        simp only [hsf] at h
        cases hbl : InputGraph.buildLoop canOpen rest kc1 k1 with
        | error e => simp [hbl] at h
        | ok r2 =>
          obtain ⟨kc2, k2, szs2⟩ := r2
          simp only [hbl] at h
          simp at h
          obtain ⟨e1, e2, e3⟩ := h
          have hd := scanFile_delta fd kc k kc1 k1 sz hsf
          have hs := ih kc1 k1 kc2 k2 szs2 hbl
          subst e1 e3
          simp [List.sum_cons]
          omega
    · rw [if_neg hco] at h; simp at h

theorem pathGraph_buildLoop_counts (source : InputGraph) (canOpen : String → Bool)
    (key_rank : Nat → Nat) (tempNames : List String) :
    ∀ (fs : List Nat) (ns : List String) (szs rcs : List Nat)
      (pc rc : Nat) (fcs : List (List PathNode)),
    PathGraph.buildLoop source canOpen key_rank tempNames fs = .ok (ns, szs, rcs, pc, rc, fcs) →
    pc = szs.sum ∧ rc = rcs.sum ∧ rcs = szs.map (fun s => 2 * s) := by
  intro fs
  induction fs with
  | nil =>
    intro ns szs rcs pc rc fcs h
    simp [PathGraph.buildLoop] at h
    obtain ⟨h1, h2, h3, h4, h5, h6⟩ := h
    subst h2 h3
    exact ⟨by simp [← h4], by simp [← h5], by simp⟩
  | cons f fs ih =>
    intro ns szs rcs pc rc fcs h
    simp only [PathGraph.buildLoop] at h
    by_cases hco : canOpen (tempNames.getD f "")
    · rw [if_pos hco] at h
      cases hr : source.readRecords canOpen f with
      | error e => simp [hr] at h
      | ok kmers =>
        simp only [hr] at h
        cases hb : PathGraph.buildLoop source canOpen key_rank tempNames fs with
        | error e => simp [hb] at h
        | ok r =>
          obtain ⟨ns', szs', rcs', pc', rc', fcs'⟩ := r
          simp only [hb] at h
          simp at h
          obtain ⟨h1, h2, h3, h4, h5, h6⟩ := h
          obtain ⟨e1, e2, e3⟩ := ih ns' szs' rcs' pc' rc' fcs' hb
          subst h2 h3
          refine ⟨by simp [List.sum_cons]; omega, by simp [List.sum_cons]; omega, by simp [e3]⟩
    · rw [if_neg hco] at h; simp at h

theorem pathGraph_buildLoop_opens (source : InputGraph) (canOpen : String → Bool)
    (key_rank : Nat → Nat) (tempNames : List String) :
    ∀ (fs : List Nat) (ns : List String) (szs rcs : List Nat)
      (pc rc : Nat) (fcs : List (List PathNode)),
    PathGraph.buildLoop source canOpen key_rank tempNames fs = .ok (ns, szs, rcs, pc, rc, fcs) →
    ∀ f ∈ fs, canOpen (tempNames.getD f "") = true := by
  intro fs
  induction fs with
  | nil => intro ns szs rcs pc rc fcs h f hf; cases hf
  | cons f0 fs ih =>
    intro ns szs rcs pc rc fcs h f hf
    simp only [PathGraph.buildLoop] at h
    by_cases hco : canOpen (tempNames.getD f0 "")
    · rcases List.mem_cons.mp hf with rfl | hf'
      · exact hco
      · rw [if_pos hco] at h
        cases hr : source.readRecords canOpen f0 with
        | error e => simp [hr] at h
        | ok kmers =>
          simp only [hr] at h
          cases hb : PathGraph.buildLoop source canOpen key_rank tempNames fs with
          | error e => simp [hb] at h
          | ok r =>
            obtain ⟨ns', szs', rcs', pc', rc', fcs'⟩ := r
            exact ih ns' szs' rcs' pc' rc' fcs' hb f hf'
    · rw [if_neg hco] at h; simp at h

/-! Claim theorems. -/

/-- Claim C1 (code bug in files.cpp line 639): the single-shard
`PathGraph::read(paths, labels, f, append)` loops `for(i = 0; i < path_count;
i++)`, reading `this->path_count` records — the total over ALL shards — rather
than the shard's own `sizes[f]`.  On the consistent two-shard graph `pgC1`
(sizes `[1, 2]`, `path_count = 3`) reading shard 0 appends 3 records instead
of `sizes[0] = 1`, and the full `PathGraph::read(paths, labels)` yields 6
records instead of `path_count = 3`. -/
theorem pathGraph_read_uses_total_count :
    pgC1.countsOk
    ∧ pgC1.sizes.getD 0 0 = 1
    ∧ (pgC1.fileContents.getD 0 []).length = 1
    ∧ pgC1.path_count = 3
    ∧ (pgC1.readShard (fun _ => true) 0 [] [] false).map (fun r => r.1.length) = .ok 3
    ∧ (pgC1.readAll (fun _ => true) (fun _ _ => True)).map (fun r => r.1.length) = .ok 6 := by
  refine ⟨by decide, by decide, by decide, by decide, by decide, by decide⟩

/-- Claim C3 (corrected): failure to open a required file is fatal for
`InputGraph::open`, `PathGraph::open` and the `PathGraph` constructor's shard
output files — but NOT for `writeKMers`, which only prints a diagnostic and
returns (see `writeKMers_returns_on_open_failure`). -/
theorem open_failure_fatal :
    (∀ (g : InputGraph) (canOpen : String → Bool) (file : Nat),
        file < g.filenames.length → canOpen (g.filenames.getD file "") = false →
        g.openFile canOpen file = .error .cannotOpen)
    ∧ (∀ (p : PathGraph) (canOpen : String → Bool) (file : Nat),
        file < p.filenames.length → canOpen (p.filenames.getD file "") = false →
        p.openFile canOpen file = .error .cannotOpen)
    ∧ (∀ (source : InputGraph) (canOpen : String → Bool) (key_rank : Nat → Nat)
          (tempNames : List String) (p : PathGraph),
        PathGraph.build source canOpen key_rank tempNames = .ok p →
        ∀ f, f < source.filenames.length → canOpen (tempNames.getD f "") = true) := by
  refine ⟨?_, ?_, ?_⟩
  · intro g canOpen file hf hco
    unfold InputGraph.openFile
    rw [if_neg (by omega), if_neg (by simp only [hco]; simp)]
  · intro p canOpen file hf hco
    unfold PathGraph.openFile
    rw [if_neg (by omega), if_neg (by simp only [hco]; simp)]
  · intro source canOpen key_rank tempNames p h f hf
    unfold PathGraph.build at h
    cases hb : PathGraph.buildLoop source canOpen key_rank tempNames
        (List.range source.filenames.length) with
    | error e => simp [hb] at h
    | ok r =>
      obtain ⟨ns, szs, rcs, pc, rc, fcs⟩ := r
      exact pathGraph_buildLoop_opens source canOpen key_rank tempNames _ ns szs rcs pc rc fcs hb
        f (List.mem_range.mpr hf)

/-- Claim C3's counterexample: `writeKMers` on an unopenable output file
returns normally (`.ok`, nothing written) — it does not terminate the
process, unlike the open operations. -/
theorem writeKMers_returns_on_open_failure :
    writeKMers (fun _ => false) "x" [] 3 = .ok none
    ∧ (Except.ok none : Except Fatal (Option (List Section))) ≠ .error .cannotOpen := by
  exact ⟨by decide, by decide⟩

/-- Witness for `open_failure_fatal` at concrete inputs. -/
theorem open_failure_fatal_witness :
    gC9.openFile (fun _ => false) 0 = .error .cannotOpen
    ∧ pgC1.openFile (fun _ => false) 1 = .error .cannotOpen
    ∧ (fun _ => true : String → Bool) (["t"].getD 0 "") = true :=
  ⟨open_failure_fatal.1 gC9 (fun _ => false) 0 (by decide) (by decide),
   open_failure_fatal.2.1 pgC1 (fun _ => false) 1 (by decide) (by decide),
   open_failure_fatal.2.2 gC9 (fun _ => true) (fun n => n) ["t"] pgC9 (by decide) 0 (by decide)⟩

/-- Claim C5: serializing any KMer list with `writeBinary` at a valid context
length and reading the stream back with `readBinary` yields exactly the same
records in the same order, and the returned kmer length is the written one. -/
theorem writeBinary_readBinary_roundTrip (kmers : List KMer) (L : Nat)
    (h1 : 0 < L) (h2 : L ≤ Key.MAX_LENGTH) :
    readBinary (writeBinary kmers L) [] false = .ok (kmers, L) := by
  have hbad : ¬(L = 0 ∨ Key.MAX_LENGTH < L) := by omega
  have hunk : (UNKNOWN : Nat) = UNKNOWN := rfl
  simp [readBinary, writeBinary, readBinaryLoop, hbad]

/-- Witness for `writeBinary_readBinary_roundTrip`. -/
theorem writeBinary_readBinary_roundTrip_witness :
    (0 < 2 ∧ 2 ≤ Key.MAX_LENGTH)
    ∧ readBinary (writeBinary [kmA, kmX] 2) [] false = .ok ([kmA, kmX], 2) :=
  ⟨by decide, writeBinary_readBinary_roundTrip [kmA, kmX] 2 (by decide) (by decide)⟩

/-- Claim C6 (code bug): a text line with fewer than 5 tab-separated fields is
skipped by `tokenize`/`readText` (the read continues and the line contributes
no records), but the counting scan the `InputGraph` constructor runs over the
SAME file feeds the line's first-token length into `setK` (files.cpp 292),
so a short line whose first field length differs from the established kmer
length terminates the process with the length-mismatch diagnostic.  Concrete
run: the file `["AC\tX\tY\tZ\t1", "ACG"]`. -/
theorem text_scan_short_line_fatal :
    (getlineSplit shortLine '\t').length < 5
    ∧ tokenize shortLine = none
    ∧ readText [goodLine, shortLine] [] false
        = .ok ([KMer.ofTokens ["AC", "X", "Y", "Z", "1"] 4], 2)
    ∧ InputGraph.build [("f", .text [goodLine, shortLine])] (fun _ => true)
        = .error .lengthMismatch := by
  refine ⟨by decide, by decide, by decide, by decide⟩

/-- Claim C9: `kmer_count` equals the sum of the per-file sizes after
`InputGraph` construction; `path_count`/`rank_count` equal the sums of the
per-shard counts after `PathGraph` construction; and the invariant is
preserved by `clear` and by `swap`. -/
theorem count_invariants :
    (∀ (files : List (String × FileData)) (canOpen : String → Bool) (g : InputGraph),
        InputGraph.build files canOpen = .ok g → g.kmer_count = g.sizes.sum)
    ∧ (∀ (source : InputGraph) (canOpen : String → Bool) (key_rank : Nat → Nat)
          (tempNames : List String) (p : PathGraph),
        PathGraph.build source canOpen key_rank tempNames = .ok p → p.countsOk)
    ∧ (∀ p : PathGraph, (PathGraph.clear p).countsOk)
    ∧ (∀ a b : PathGraph, a.countsOk → b.countsOk →
        (PathGraph.swap a b).1.countsOk ∧ (PathGraph.swap a b).2.countsOk) := by
  refine ⟨?_, ?_, ?_, ?_⟩
  · intro files canOpen g h
    unfold InputGraph.build at h
    cases hb : InputGraph.buildLoop canOpen (files.map (fun p => (p.1 ++ p.2.extension, p.2)))
        0 UNKNOWN with
    | error e => simp [hb] at h
    | ok r =>
      obtain ⟨kc, k, szs⟩ := r
      simp only [hb] at h
      simp at h
      have := inputGraph_buildLoop_sum canOpen _ 0 UNKNOWN kc k szs hb
      rw [← h]
      simpa using this
  · intro source canOpen key_rank tempNames p h
    unfold PathGraph.build at h
    cases hb : PathGraph.buildLoop source canOpen key_rank tempNames
        (List.range source.filenames.length) with
    | error e => simp [hb] at h
    | ok r =>
      obtain ⟨ns, szs, rcs, pc, rc, fcs⟩ := r
      simp only [hb] at h
      simp at h
      obtain ⟨e1, e2, e3⟩ := pathGraph_buildLoop_counts source canOpen key_rank tempNames
        _ ns szs rcs pc rc fcs hb
      rw [← h]
      exact ⟨e1, e2⟩
  · intro p
    exact ⟨rfl, rfl⟩
  · intro a b ha hb
    exact ⟨hb, ha⟩

/-- Witness for `count_invariants` at concrete inputs. -/
theorem count_invariants_witness :
    InputGraph.build [("a", .binary [⟨0, 2, [kmA]⟩])] (fun _ => true) = .ok gC9
    ∧ gC9.kmer_count = gC9.sizes.sum
    ∧ PathGraph.build gC9 (fun _ => true) (fun n => n) ["t"] = .ok pgC9
    ∧ pgC9.countsOk
    ∧ (PathGraph.clear pgC9).countsOk
    ∧ (PathGraph.swap pgC9 pgC1).1.countsOk :=
  ⟨by decide,
   count_invariants.1 [("a", .binary [⟨0, 2, [kmA]⟩])] (fun _ => true) gC9 (by decide),
   by decide,
   count_invariants.2.1 gC9 (fun _ => true) (fun n => n) ["t"] pgC9 (by decide),
   count_invariants.2.2.1 pgC9,
   (count_invariants.2.2.2 pgC9 pgC1
     (count_invariants.2.1 gC9 (fun _ => true) (fun n => n) ["t"] pgC9 (by decide))
     (by decide)).1⟩

/-- Claim C10: in the order-1 PathGraph built from an InputGraph, the
per-shard rank counts are exactly twice the per-shard path counts and the
total rank count is twice the total path count. -/
theorem order1_rank_counts (source : InputGraph) (canOpen : String → Bool)
    (key_rank : Nat → Nat) (tempNames : List String) (p : PathGraph)
    (h : PathGraph.build source canOpen key_rank tempNames = .ok p) :
    p.rank_counts = p.sizes.map (fun s => 2 * s) ∧ p.rank_count = 2 * p.path_count := by
  unfold PathGraph.build at h
  cases hb : PathGraph.buildLoop source canOpen key_rank tempNames
      (List.range source.filenames.length) with
  | error e => rw [hb] at h; simp at h
  | ok r =>
    obtain ⟨ns, szs, rcs, pc, rc, fcs⟩ := r
    rw [hb] at h
    simp at h
    obtain ⟨e1, e2, e3⟩ := pathGraph_buildLoop_counts source canOpen key_rank tempNames
      _ ns szs rcs pc rc fcs hb
    rw [← h]
    refine ⟨e3, ?_⟩
    rw [e2, e3, e1, sum_map_two_mul]

/-- `findSink` through the underlying `find?`. -/
theorem findSink_eq_find? (kmers : List KMer) :
    findSink kmers
      = ((kmers.find? (fun km => km.key.label == 0)).map (fun km => km.«from».id)).getD UNKNOWN := by
  unfold findSink
  cases kmers.find? (fun km => km.key.label == 0) <;> rfl

/-- The marking map changes neither the end-marker predicate nor the source
ids, so the recovered sink is unchanged. -/
theorem findSink_mark (sink : Nat) (kmers : List KMer) :
    findSink (kmers.map (fun km =>
      if km.«to».id = sink ∧ 0 < km.«to».offset then km.makeSorted else km)) = findSink kmers := by
  rw [findSink_eq_find?, findSink_eq_find?]
  induction kmers with
  | nil => rfl
  | cons km t ih =>
    by_cases hc : km.«to».id = sink ∧ 0 < km.«to».offset
    · cases hl : (km.key.label == 0) with
      | false => simpa [List.find?_cons, hc, hl, KMer.makeSorted] using ih
      | true => simp [List.find?_cons, hc, hl, KMer.makeSorted]
    · cases hl : (km.key.label == 0) with
      | false => simpa [List.find?_cons, hc, hl] using ih
      | true => simp [List.find?_cons, hc, hl]

/-- Running the marking pass twice is the same as running it once. -/
theorem markSinkNode_idem (kmers : List KMer) :
    markSinkNode (markSinkNode kmers) = markSinkNode kmers := by
  unfold markSinkNode
  rw [findSink_mark, List.map_map]
  apply List.map_congr_left
  intro km _
  by_cases hc : km.«to».id = findSink kmers ∧ 0 < km.«to».offset
  · simp [Function.comp, hc, KMer.makeSorted]
  · simp [Function.comp, hc]

/-- Claim C7: `markSinkNode` recovers the sink node id from the (first)
record with an empty label, sets `sorted` on exactly the records whose
destination is the sink node at a nonzero offset (on a freshly loaded set,
whose `sorted` flags are all clear), and is idempotent — a pure function of
the loaded records. -/
theorem markSinkNode_spec (kmers : List KMer)
    (hclean : ∀ km ∈ kmers, km.sorted = false)
    (km0 : KMer) (hfind : kmers.find? (fun km => km.key.label == 0) = some km0) :
    findSink kmers = km0.«from».id
    ∧ (∀ i (hi : i < kmers.length) (hi2 : i < (markSinkNode kmers).length),
        ((markSinkNode kmers).get ⟨i, hi2⟩).sorted = true ↔
          ((kmers.get ⟨i, hi⟩).«to».id = findSink kmers
            ∧ 0 < (kmers.get ⟨i, hi⟩).«to».offset))
    ∧ markSinkNode (markSinkNode kmers) = markSinkNode kmers := by
  refine ⟨?_, ?_, markSinkNode_idem kmers⟩
  · rw [findSink_eq_find?, hfind]; rfl
  · intro i hi hi2
    have hmem : kmers[i] ∈ kmers := List.getElem_mem hi
    simp only [List.get_eq_getElem]
    unfold markSinkNode at hi2 ⊢
    rw [List.getElem_map]
    by_cases hc : (kmers[i]).«to».id = findSink kmers ∧ 0 < (kmers[i]).«to».offset
    · simp only [if_pos hc, KMer.makeSorted]
      simpa using hc
    · simp only [if_neg hc]
      rw [hclean _ hmem]
      simp [hc]

/-- Witness for `markSinkNode_spec`: on `[kmSink, kmEdge]` the sink node id 7
is recovered from the empty-label record, the second record (destination node
7 at offset 2) is the only one marked, and marking twice equals marking
once. -/
theorem markSinkNode_spec_witness :
    findSink [kmSink, kmEdge] = 7
    ∧ markSinkNode (markSinkNode [kmSink, kmEdge]) = markSinkNode [kmSink, kmEdge]
    ∧ (markSinkNode [kmSink, kmEdge]).map KMer.sorted = [false, true] :=
  ⟨(markSinkNode_spec [kmSink, kmEdge] (by decide) kmSink (by decide)).1,
   (markSinkNode_spec [kmSink, kmEdge] (by decide) kmSink (by decide)).2.2,
   by decide⟩

/-- Claim C8: if the first observed kmer length of a read is 0 or exceeds
`Key::MAX_LENGTH`, both `readText` and `readBinary` exit fatally at that
first observation, before emitting any record: the error state carries the
records emitted up to the exit, which is exactly the initial (append-mode)
content. -/
theorem invalid_first_length_fatal
    (s : Section) (rest : List Section) (kmers0 : List KMer)
    (hflags : s.flags = 0)
    (hbad : s.kmer_length = 0 ∨ Key.MAX_LENGTH < s.kmer_length)
    (pre : List String) (bad : String) (rest2 : List String) (ts : List String)
    (hpre : ∀ l ∈ pre, tokenize l = none) (htok : tokenize bad = some ts)
    (hbad2 : (ts.headD "").length = 0 ∨ Key.MAX_LENGTH < (ts.headD "").length) :
    readBinaryLoop (s :: rest) kmers0 UNKNOWN = .error (kmers0, .invalidLength)
    ∧ readBinary (s :: rest) kmers0 false = .error ([], .invalidLength)
    ∧ readTextLoop (pre ++ bad :: rest2) kmers0 UNKNOWN = .error (kmers0, .invalidLength)
    ∧ readText (pre ++ bad :: rest2) kmers0 false = .error ([], .invalidLength) := by
  have hbin : ∀ ks : List KMer,
      readBinaryLoop (s :: rest) ks UNKNOWN = .error (ks, .invalidLength) := by
    intro ks
    simp [readBinaryLoop, hflags, hbad]
  have htxt : ∀ (p : List String), (∀ l ∈ p, tokenize l = none) → ∀ ks : List KMer,
      readTextLoop (p ++ bad :: rest2) ks UNKNOWN = .error (ks, .invalidLength) := by
    intro p
    induction p with
    | nil =>
      intro _ ks
      simp only [List.nil_append, readTextLoop, htok, if_true]
      rw [if_pos hbad2]
    | cons l p ih =>
      intro hp ks
      have hl := hp l (List.mem_cons_self l p)
      simp only [List.cons_append, readTextLoop, hl]
      exact ih (fun x hx => hp x (List.mem_cons_of_mem l hx)) ks
  refine ⟨hbin kmers0, ?_, htxt pre hpre kmers0, ?_⟩
  · simpa [readBinary] using hbin []
  · simpa [readText] using htxt pre hpre []

/-- Witness for `invalid_first_length_fatal`: a binary section declaring
length 0, and a text file whose first valid line has an empty first field
(after one skipped malformed line); both exit with nothing emitted. -/
theorem invalid_first_length_fatal_witness :
    readBinaryLoop [⟨0, 0, [kmA]⟩] [] UNKNOWN = .error ([], .invalidLength)
    ∧ readTextLoop ["AC", "\tX\tY\tZ\t1,2"] [] UNKNOWN = .error ([], .invalidLength) :=
  ⟨(invalid_first_length_fatal ⟨0, 0, [kmA]⟩ [] [] (by decide) (by decide)
      ["AC"] "\tX\tY\tZ\t1,2" [] ["", "X", "Y", "Z", "1", "2"]
      (by decide) (by decide) (by decide)).1,
   (invalid_first_length_fatal ⟨0, 0, [kmA]⟩ [] [] (by decide) (by decide)
      ["AC"] "\tX\tY\tZ\t1,2" [] ["", "X", "Y", "Z", "1", "2"]
      (by decide) (by decide) (by decide)).2.2.1⟩

/-- Witness for `order1_rank_counts`. -/
theorem order1_rank_counts_witness :
    PathGraph.build gC9 (fun _ => true) (fun n => n) ["t"] = .ok pgC9
    ∧ pgC9.rank_counts = pgC9.sizes.map (fun s => 2 * s)
    ∧ pgC9.rank_count = 2 * pgC9.path_count :=
  ⟨by decide,
   (order1_rank_counts gC9 (fun _ => true) (fun n => n) ["t"] pgC9 (by decide)).1,
   (order1_rank_counts gC9 (fun _ => true) (fun n => n) ["t"] pgC9 (by decide)).2⟩

/-- Success of the binary section loop forces every section's declared length
to equal the returned length (and the returned length to be the incoming one,
when that was already established). -/
theorem readBinaryLoop_ok_lengths :
    ∀ (secs : List Section) (ks0 : List KMer) (klen : Nat) (ks : List KMer) (L : Nat),
    readBinaryLoop secs ks0 klen = .ok (ks, L) →
    (∀ s ∈ secs, s.kmer_length = L) ∧ (klen ≠ UNKNOWN → L = klen) := by
  intro secs
  induction secs with
  | nil =>
    intro ks0 klen ks L h
    simp [readBinaryLoop] at h
    exact ⟨by simp, fun _ => h.2.symm⟩
  | cons s rest ih =>
    intro ks0 klen ks L h
    simp only [readBinaryLoop] at h
    by_cases hf : s.flags ≠ 0
    · rw [if_pos hf] at h; simp at h
    · rw [if_neg hf] at h
      by_cases hk : klen = UNKNOWN
      · rw [if_pos hk] at h
        by_cases hbad : s.kmer_length = 0 ∨ Key.MAX_LENGTH < s.kmer_length
        · rw [if_pos hbad] at h; simp at h
        · rw [if_neg hbad] at h
          obtain ⟨h1, h2⟩ := ih _ _ _ _ h
          have hsl : s.kmer_length ≠ UNKNOWN := by unfold Key.MAX_LENGTH UNKNOWN at *; omega
          have hL : L = s.kmer_length := h2 hsl
          refine ⟨?_, fun hcontra => absurd hk hcontra⟩
          intro s2 hs2
          rcases List.mem_cons.mp hs2 with rfl | hmem
          · omega
          · exact h1 s2 hmem
      · rw [if_neg hk] at h
        by_cases hm : s.kmer_length ≠ klen
        · rw [if_pos hm] at h; simp at h
        · rw [if_neg hm] at h
          obtain ⟨h1, h2⟩ := ih _ _ _ _ h
          have hL : L = klen := h2 hk
          refine ⟨?_, fun _ => hL⟩
          intro s2 hs2
          rcases List.mem_cons.mp hs2 with rfl | hmem
          · omega
          · exact h1 s2 hmem

/-- Once a length is established, any later section declaring a different
length makes the binary loop exit with the length-mismatch diagnostic. -/
theorem readBinaryLoop_established_mismatch :
    ∀ (secs : List Section) (ks0 : List KMer) (klen : Nat),
    klen ≠ UNKNOWN → (∀ s ∈ secs, s.flags = 0) →
    (∃ s ∈ secs, s.kmer_length ≠ klen) →
    fatalOf (readBinaryLoop secs ks0 klen) = some .lengthMismatch := by
  intro secs
  induction secs with
  | nil => intro ks0 klen _ _ hex; simp at hex
  | cons s rest ih =>
    intro ks0 klen hk hflags hex
    simp only [readBinaryLoop]
    rw [if_neg (by simp [hflags s (List.mem_cons_self s rest)]), if_neg hk]
    by_cases hm : s.kmer_length ≠ klen
    · rw [if_pos hm]; rfl
    · rw [if_neg hm]
      apply ih _ _ hk (fun x hx => hflags x (List.mem_cons_of_mem s hx))
      obtain ⟨s2, hs2, hne⟩ := hex
      rcases List.mem_cons.mp hs2 with rfl | hmem
      · exact absurd hne hm
      · exact ⟨s2, hmem, hne⟩

/-- Two sections declaring different lengths (all sections otherwise
well-formed) always make the binary loop exit via the length-mismatch
diagnostic, starting from the unestablished state. -/
theorem readBinaryLoop_mismatch_fatal (secs : List Section) (ks0 : List KMer)
    (hflags : ∀ s ∈ secs, s.flags = 0)
    (hvalid : ∀ s ∈ secs, 0 < s.kmer_length ∧ s.kmer_length ≤ Key.MAX_LENGTH)
    (hdiff : ∃ s1 ∈ secs, ∃ s2 ∈ secs, s1.kmer_length ≠ s2.kmer_length) :
    fatalOf (readBinaryLoop secs ks0 UNKNOWN) = some .lengthMismatch := by
  cases secs with
  | nil => simp at hdiff
  | cons s rest =>
    simp only [readBinaryLoop]
    rw [if_neg (by simp [hflags s (List.mem_cons_self s rest)]), if_true,
      if_neg (by have := hvalid s (List.mem_cons_self s rest); omega)]
    apply readBinaryLoop_established_mismatch rest _ s.kmer_length
      (by have := hvalid s (List.mem_cons_self s rest); unfold Key.MAX_LENGTH UNKNOWN at *; omega)
      (fun x hx => hflags x (List.mem_cons_of_mem s hx))
    obtain ⟨s1, hs1, s2, hs2, hne⟩ := hdiff
    by_cases h1 : s1.kmer_length = s.kmer_length
    · have h2 : s2.kmer_length ≠ s.kmer_length := by omega
      rcases List.mem_cons.mp hs2 with rfl | hm2
      · exact absurd rfl h2
      · exact ⟨s2, hm2, h2⟩
    · rcases List.mem_cons.mp hs1 with rfl | hm1
      · exact absurd rfl h1
      · exact ⟨s1, hm1, h1⟩

/-- Success of the text loop forces every valid (5-field) line's first-token
length to equal the returned length. -/
theorem readTextLoop_ok_lengths :
    ∀ (lines : List String) (ks0 : List KMer) (klen : Nat) (ks : List KMer) (L : Nat),
    readTextLoop lines ks0 klen = .ok (ks, L) →
    (∀ line ∈ lines, ∀ ts, tokenize line = some ts → (ts.headD "").length = L)
    ∧ (klen ≠ UNKNOWN → L = klen) := by
  intro lines
  induction lines with
  | nil =>
    intro ks0 klen ks L h
    simp [readTextLoop] at h
    exact ⟨by simp, fun _ => h.2.symm⟩
  | cons line rest ih =>
    intro ks0 klen ks L h
    simp only [readTextLoop] at h
    cases htok : tokenize line with
    | none =>
      simp only [htok] at h
      obtain ⟨h1, h2⟩ := ih _ _ _ _ h
      refine ⟨?_, h2⟩
      intro l hl ts hts
      rcases List.mem_cons.mp hl with rfl | hmem
      · rw [htok] at hts; cases hts
      · exact h1 l hmem ts hts
    | some ts0 =>
      simp only [htok] at h
      by_cases hk : klen = UNKNOWN
      · rw [if_pos hk] at h
        by_cases hbad : (ts0.headD "").length = 0 ∨ Key.MAX_LENGTH < (ts0.headD "").length
        · rw [if_pos hbad] at h; simp at h
        · rw [if_neg hbad] at h
          obtain ⟨h1, h2⟩ := ih _ _ _ _ h
          have hne : (ts0.headD "").length ≠ UNKNOWN := by
            unfold Key.MAX_LENGTH UNKNOWN at *; omega
          have hL := h2 hne
          refine ⟨?_, fun hcontra => absurd hk hcontra⟩
          intro l hl ts hts
          rcases List.mem_cons.mp hl with rfl | hmem
          · rw [htok] at hts; injection hts with e; rw [← e]; omega
          · exact h1 l hmem ts hts
      · rw [if_neg hk] at h
        by_cases hm : (ts0.headD "").length ≠ klen
        · rw [if_pos hm] at h; simp at h
        · rw [if_neg hm] at h
          obtain ⟨h1, h2⟩ := ih _ _ _ _ h
          have hL := h2 hk
          refine ⟨?_, fun _ => hL⟩
          intro l hl ts hts
          rcases List.mem_cons.mp hl with rfl | hmem
          · rw [htok] at hts; injection hts with e; rw [← e]; omega
          · exact h1 l hmem ts hts

/-- Once a length is established, any later valid line whose first-token
length differs makes the text loop exit with the length-mismatch
diagnostic. -/
theorem readTextLoop_established_mismatch :
    ∀ (lines : List String) (ks0 : List KMer) (klen : Nat),
    klen ≠ UNKNOWN →
    (∃ l ∈ lines, ∃ ts, tokenize l = some ts ∧ (ts.headD "").length ≠ klen) →
    fatalOf (readTextLoop lines ks0 klen) = some .lengthMismatch := by
  intro lines
  induction lines with
  | nil => intro ks0 klen _ hex; simp at hex
  | cons line rest ih =>
    intro ks0 klen hk hex
    cases htok : tokenize line with
    | none =>
      simp only [readTextLoop, htok]
      apply ih _ _ hk
      obtain ⟨l, hl, ts, hts, hne⟩ := hex
      rcases List.mem_cons.mp hl with rfl | hmem
      · rw [htok] at hts; cases hts
      · exact ⟨l, hmem, ts, hts, hne⟩
    | some ts0 =>
      simp only [readTextLoop, htok]
      rw [if_neg hk]
      by_cases hm : (ts0.headD "").length ≠ klen
      · rw [if_pos hm]; rfl
      · rw [if_neg hm]
        apply ih _ _ hk
        obtain ⟨l, hl, ts, hts, hne⟩ := hex
        rcases List.mem_cons.mp hl with rfl | hmem
        · rw [htok] at hts; injection hts with e; subst e; exact absurd hne hm
        · exact ⟨l, hmem, ts, hts, hne⟩

/-- The `checkK` gate of `InputGraph::read(kmers, file)`: a file whose parsed
length disagrees with the graph's established length exits with the
length-mismatch diagnostic. -/
theorem readRecords_checkK_mismatch (g : InputGraph) (canOpen : String → Bool) (file : Nat)
    (ks : List KMer) (L : Nat)
    (hf : file < g.filenames.length) (hco : canOpen (g.filenames.getD file "") = true)
    (hparse : readFileData (g.contents.getD file (.binary [])) [] false = .ok (ks, L))
    (hmis : L ≠ g.kmer_length) :
    g.readRecords canOpen file = .error .lengthMismatch := by
  have ho : g.openFile canOpen file = .ok () := by
    unfold InputGraph.openFile
    rw [if_neg (by omega), if_pos hco]
  unfold InputGraph.readRecords
  simp only [ho, hparse]
  rw [if_pos hmis]

/-- Claim C4: shards with differing declared context lengths are never
silently resolved.  Within a read, success forces every section (every valid
text line) to carry the one returned length; a section or line differing from
the established length exits with the fatal length-mismatch diagnostic, as
does `checkK` when a whole file's length disagrees with the graph's. -/
theorem length_mismatch_always_fatal :
    (∀ (secs : List Section) (ks0 ks : List KMer) (klen L : Nat),
        readBinaryLoop secs ks0 klen = .ok (ks, L) → ∀ s ∈ secs, s.kmer_length = L)
    ∧ (∀ (secs : List Section) (ks0 : List KMer),
        (∀ s ∈ secs, s.flags = 0) →
        (∀ s ∈ secs, 0 < s.kmer_length ∧ s.kmer_length ≤ Key.MAX_LENGTH) →
        (∃ s1 ∈ secs, ∃ s2 ∈ secs, s1.kmer_length ≠ s2.kmer_length) →
        fatalOf (readBinaryLoop secs ks0 UNKNOWN) = some .lengthMismatch)
    ∧ (∀ (lines : List String) (ks0 ks : List KMer) (klen L : Nat),
        readTextLoop lines ks0 klen = .ok (ks, L) →
        ∀ line ∈ lines, ∀ ts, tokenize line = some ts → (ts.headD "").length = L)
    ∧ (∀ (lines : List String) (ks0 : List KMer) (klen : Nat),
        klen ≠ UNKNOWN →
        (∃ l ∈ lines, ∃ ts, tokenize l = some ts ∧ (ts.headD "").length ≠ klen) →
        fatalOf (readTextLoop lines ks0 klen) = some .lengthMismatch)
    ∧ (∀ (g : InputGraph) (canOpen : String → Bool) (file : Nat) (ks : List KMer) (L : Nat),
        file < g.filenames.length → canOpen (g.filenames.getD file "") = true →
        readFileData (g.contents.getD file (.binary [])) [] false = .ok (ks, L) →
        L ≠ g.kmer_length →
        g.readRecords canOpen file = .error .lengthMismatch) :=
  ⟨fun secs ks0 ks klen L h => (readBinaryLoop_ok_lengths secs ks0 klen ks L h).1,
   readBinaryLoop_mismatch_fatal,
   fun lines ks0 ks klen L h => (readTextLoop_ok_lengths lines ks0 klen ks L h).1,
   readTextLoop_established_mismatch,
   readRecords_checkK_mismatch⟩

/-- Witness for `length_mismatch_always_fatal`: sections declaring 4 then 5
exit with the mismatch diagnostic; a successful run over one section of
length 4 reports 4; an established text read hitting a line of length 3
exits; `gBad` (graph length 5, file declaring 4) exits at `checkK`. -/
theorem length_mismatch_always_fatal_witness :
    (Section.mk 0 4 [kmA]).kmer_length = 4
    ∧ fatalOf (readBinaryLoop [⟨0, 4, [kmA]⟩, ⟨0, 5, []⟩] [] UNKNOWN) = some .lengthMismatch
    ∧ fatalOf (readTextLoop ["ACG\tX\tY\tZ\t1"] [] 2) = some .lengthMismatch
    ∧ gBad.readRecords (fun _ => true) 0 = .error .lengthMismatch :=
  ⟨length_mismatch_always_fatal.1 [⟨0, 4, [kmA]⟩] [] [kmA] UNKNOWN 4 (by decide)
      ⟨0, 4, [kmA]⟩ (by decide),
   length_mismatch_always_fatal.2.1 [⟨0, 4, [kmA]⟩, ⟨0, 5, []⟩] [] (by decide) (by decide)
      ⟨⟨0, 4, [kmA]⟩, by decide, ⟨0, 5, []⟩, by decide, by decide⟩,
   length_mismatch_always_fatal.2.2.2.1 ["ACG\tX\tY\tZ\t1"] [] 2 (by decide)
      ⟨"ACG\tX\tY\tZ\t1", by decide, ["ACG", "X", "Y", "Z", "1"], by decide, by decide⟩,
   length_mismatch_always_fatal.2.2.2.2 gBad (fun _ => true) 0 [] 4 (by decide) (by decide)
      (by decide) (by decide)⟩

/-- Folding the information-bit union is invariant under permutation. -/
theorem foldr_info_or_perm {l1 l2 : List Key} (h : l1.Perm l2) (b : Nat) :
    l1.foldr (fun k a => k.info ||| a) b = l2.foldr (fun k a => k.info ||| a) b := by
  induction h with
  | nil => rfl
  | cons x _ ih => simp [ih]
  | swap x y l => simp [← Nat.lor_assoc, Nat.lor_comm y.info x.info]
  | trans _ _ ih1 ih2 => rw [ih1, ih2]

/-- `mergeAll` is invariant under permutation of the merged keys. -/
theorem mergeAll_perm (L : Nat) {l1 l2 : List Key} (h : l1.Perm l2) :
    mergeAll L l1 = mergeAll L l2 := by
  unfold mergeAll
  rw [foldr_info_or_perm h]

/-- Merging a single key with itself-only is the key. -/
theorem mergeAll_single (k : Key) : mergeAll k.label [k] = k := by
  unfold mergeAll
  rw [List.foldr_cons, List.foldr_nil, Nat.or_zero]

/-- The coalescing loop on a label-sorted list produces, for each distinct
label in order, the merge of all keys carrying that label. -/
theorem coalesceLoop_eq :
    ∀ (ks : List Key) (k : Key),
    (k :: ks).Pairwise (fun a b => a.label ≤ b.label) →
    coalesceLoop k ks
      = ((k :: ks).map Key.label).dedup.map
          (fun L => mergeAll L ((k :: ks).filter (fun x => x.label == L))) := by
  intro ks
  induction ks with
  | nil =>
    intro k _
    show [k] = _
    rw [List.map_cons, List.map_nil, List.dedup_cons_of_not_mem (by simp), List.dedup_nil]
    rw [List.map_cons, List.map_nil]
    rw [List.filter_cons, if_pos (by simp), List.filter_nil, mergeAll_single]
  | cons k2 ks ih =>
    intro k hpw
    rw [List.pairwise_cons] at hpw
    obtain ⟨hk, hpw2⟩ := hpw
    by_cases heq : k.label = k2.label
    · -- adjacent equal labels: merge into the accumulator
      have hmw : ((Key.merge k k2) :: ks).Pairwise (fun a b => a.label ≤ b.label) := by
        rw [List.pairwise_cons]
        refine ⟨?_, (List.pairwise_cons.mp hpw2).2⟩
        intro b hb
        have hb2 := (List.pairwise_cons.mp hpw2).1 b hb
        simp only [Key.merge]
        omega
      have hrec := ih (Key.merge k k2) hmw
      simp only [coalesceLoop]
      rw [if_pos heq, hrec]
      have hlab : (((Key.merge k k2) :: ks).map Key.label).dedup
          = ((k :: k2 :: ks).map Key.label).dedup := by
        simp only [List.map_cons, Key.merge]
        rw [← heq]
        conv_rhs => rw [List.dedup_cons_of_mem (List.mem_cons_self k.label (ks.map Key.label))]
      rw [hlab]
      apply List.map_congr_left
      intro L _
      by_cases hL : k.label = L
      · rw [List.filter_cons, List.filter_cons, List.filter_cons]
        rw [if_pos (by simp [Key.merge, hL]), if_pos (by simp [hL]),
          if_pos (by simp [← heq, hL])]
        unfold mergeAll
        simp [Key.merge, Nat.lor_assoc]
      · rw [List.filter_cons, List.filter_cons, List.filter_cons]
        rw [if_neg (by simp [Key.merge]; omega), if_neg (by simp; omega),
          if_neg (by simp; omega)]
    · -- a new label: the accumulator is finished
      simp only [coalesceLoop]
      rw [if_neg heq, ih k2 hpw2]
      have hklt : ∀ b ∈ k2 :: ks, k.label < b.label := by
        intro b hb
        have hle := hk b hb
        rcases List.mem_cons.mp hb with rfl | hmem
        · omega
        · have h1 := (List.pairwise_cons.mp hpw2).1 b hmem
          have h2 := hk k2 (List.mem_cons_self k2 ks)
          omega
      have hnotmem : k.label ∉ (k2 :: ks).map Key.label := by
        intro hmem
        obtain ⟨b, hb, he⟩ := List.mem_map.mp hmem
        have := hklt b hb
        omega
      rw [show ((k :: k2 :: ks).map Key.label) = k.label :: ((k2 :: ks).map Key.label) from rfl]
      rw [List.dedup_cons_of_not_mem hnotmem, List.map_cons]
      congr 1
      · show k = mergeAll k.label ((k :: k2 :: ks).filter (fun x => x.label == k.label))
        have hrest : (k2 :: ks).filter (fun x => x.label == k.label) = [] := by
          rw [List.filter_eq_nil_iff]
          intro a ha
          have := hklt a ha
          simp
          omega
        rw [List.filter_cons, if_pos (by simp), hrest, mergeAll_single]
      · apply List.map_congr_left
        intro L hL
        have hLmem : L ∈ (k2 :: ks).map Key.label := List.mem_dedup.mp hL
        obtain ⟨b, hb, he⟩ := List.mem_map.mp hLmem
        have hlt : k.label < L := he ▸ hklt b hb
        conv_rhs => rw [List.filter_cons]
        rw [if_neg (by simp; omega)]

/-- Sorting by the full key ordering and then coalescing produces exactly the
specification's answer: one merged key per distinct label, in label order. -/
theorem coalesce_sortKeys (input : List Key) (hne : input ≠ []) :
    coalesce (sortKeys input) = specUniqueKeys input := by
  have hperm : (sortKeys input).Perm input := List.perm_insertionSort Key.le input
  have hsorted : List.Sorted Key.le (sortKeys input) := List.sorted_insertionSort Key.le input
  have hlbl : (sortKeys input).Pairwise (fun a b => a.label ≤ b.label) := by
    apply List.Pairwise.imp _ hsorted
    intro a b hab
    unfold Key.le at hab
    omega
  cases hs : sortKeys input with
  | nil =>
    exfalso
    apply hne
    have hlen := hperm.length_eq
    rw [hs] at hlen
    exact List.eq_nil_of_length_eq_zero hlen.symm
  | cons k ks =>
    rw [hs] at hlbl hperm
    show coalesceLoop k ks = _
    rw [coalesceLoop_eq ks k hlbl]
    unfold specUniqueKeys
    have hsorted1 : List.Sorted (fun a b : Nat => a ≤ b) ((k :: ks).map Key.label) :=
      List.pairwise_map.mpr hlbl
    have hsorted2 : List.Sorted (fun a b : Nat => a ≤ b)
        (List.insertionSort (fun a b : Nat => a ≤ b) (input.map Key.label)) :=
      List.sorted_insertionSort _ _
    have hperm2 : ((k :: ks).map Key.label).Perm
        (List.insertionSort (fun a b : Nat => a ≤ b) (input.map Key.label)) :=
      (hperm.map Key.label).trans (List.perm_insertionSort _ _).symm
    have hlabeq : (k :: ks).map Key.label
        = List.insertionSort (fun a b : Nat => a ≤ b) (input.map Key.label) :=
      List.eq_of_perm_of_sorted hperm2 hsorted1 hsorted2
    rw [← hlabeq]
    apply List.map_congr_left
    intro L _
    exact mergeAll_perm L (hperm.filter (fun x => x.label == L))

/-- The labels of the specification's answer are strictly increasing. -/
theorem specUniqueKeys_pairwise (input : List Key) :
    (specUniqueKeys input).Pairwise (fun a b => a.label < b.label) := by
  unfold specUniqueKeys
  rw [List.pairwise_map]
  have hsorted : List.Sorted (fun a b : Nat => a ≤ b)
      (List.insertionSort (fun a b : Nat => a ≤ b) (input.map Key.label)) :=
    List.sorted_insertionSort _ _
  have hple := List.Pairwise.sublist (List.dedup_sublist _) hsorted
  have hnd : (List.insertionSort (fun a b : Nat => a ≤ b) (input.map Key.label)).dedup.Nodup :=
    List.nodup_dedup _
  have hlt := (hple.and hnd).imp (fun h => lt_of_le_of_ne h.1 h.2)
  exact hlt.imp (fun h => h)

/-- Claim C2 (amended to nonempty inputs): `InputGraph::read(keys)` returns
one key per distinct label among the loaded keys — the `Key::merge` of all
loaded keys sharing that label — sorted by the full key ordering (the labels
strictly increase), and nothing else. -/
theorem inputGraph_readKeys_unique_merged (g : InputGraph) (canOpen : String → Bool)
    (input : List Key) (hload : g.loadKeys canOpen = .ok input) (hne : input ≠ []) :
    g.readKeys canOpen = .ok (specUniqueKeys input)
    ∧ (specUniqueKeys input).Pairwise (fun a b => a.label < b.label) := by
  constructor
  · unfold InputGraph.readKeys
    simp only [hload]
    rw [coalesce_sortKeys input hne]
  · exact specUniqueKeys_pairwise input

/-- Claim C2's counterexample: on an input graph with ZERO kmers,
`read(keys)` does not return an empty key sequence — the final
`keys.resize(i + 1)` grows the empty vector to one value-initialized key. -/
theorem inputGraph_readKeys_empty_counterexample :
    gEmpty.kmer_count = 0
    ∧ InputGraph.build [("e", .binary [])] (fun _ => true) = .ok gEmpty
    ∧ gEmpty.readKeys (fun _ => true) = .ok [⟨0, 0⟩]
    ∧ gEmpty.readKeys (fun _ => true) ≠ .ok ([] : List Key) := by
  refine ⟨by decide, by decide, by decide, by decide⟩

/-- Witness for `inputGraph_readKeys_unique_merged`: three loaded keys, two
sharing label 5, coalesce to the merge `⟨5, 1 ||| 2⟩` followed by `⟨9, 4⟩`. -/
theorem inputGraph_readKeys_unique_merged_witness :
    gC2.loadKeys (fun _ => true) = .ok [⟨5, 1⟩, ⟨5, 2⟩, ⟨9, 4⟩]
    ∧ gC2.readKeys (fun _ => true) = .ok (specUniqueKeys [⟨5, 1⟩, ⟨5, 2⟩, ⟨9, 4⟩])
    ∧ specUniqueKeys [⟨5, 1⟩, ⟨5, 2⟩, ⟨9, 4⟩] = [⟨5, 3⟩, ⟨9, 4⟩] :=
  ⟨by decide,
   (inputGraph_readKeys_unique_merged gC2 (fun _ => true) [⟨5, 1⟩, ⟨5, 2⟩, ⟨9, 4⟩]
      (by decide) (by decide)).1,
   by decide⟩

end gcsa
